/-
  Verification of the HashRust file-hashing utility core.

  Shallow embedding of the hashing engine: the CRC32 digest adapter
  (src/hash/crc32.rs), the file digest engine (src/hash/digest_impl.rs),
  the algorithm/encoding dispatcher (src/hash/algorithms.rs) and the
  worker coordinator (src/core/worker.rs).  Bytes are Nat values < 256,
  machine integers are Nat with explicit reductions mod 2^32, file
  contents are byte lists, the file system maps each path string to the
  content of a readable file or to nothing.
-/
import Mathlib

namespace HashRust

/-! ### Data model: enums from src/core/types.rs -/

/-- Embeds enum HashAlgorithm from src/core/types.rs. -/
inductive HashAlgorithm where
  | CRC32
  | MD5
  | SHA1
  | SHA2_256
  | SHA2_224
  | SHA2_384
  | SHA3_256
  | SHA2_512
  | SHA3_384
  | SHA3_512
  | Whirlpool
  | Blake2B512
  | Blake2S256
deriving DecidableEq, Repr

/-- Embeds enum OutputEncoding from src/core/types.rs. -/
inductive OutputEncoding where
  | Hex
  | Base64
  | Base32
  | U32
deriving DecidableEq, Repr

/-- Error taxonomy of the core (spec section 7): the three anyhow error
messages produced in src/hash/algorithms.rs (configuration), file open or
read failures (I/O), and the defensive digest-size check in
src/hash/digest_impl.rs (encoding mismatch). -/
inductive HashError where
  | configError
  | ioError
  | encodingMismatch
deriving DecidableEq, Repr

/-! ### CRC32 (models the external crc32fast crate: reflected IEEE CRC-32,
initial register 0xFFFFFFFF, polynomial 0xEDB88320, final xor 0xFFFFFFFF) -/

def crc32Poly : Nat := 0xEDB88320

/-- One bit step of the reflected CRC-32 register. -/
def crc32BitStep (c : Nat) : Nat :=
  if c % 2 = 1 then Nat.xor (c / 2) crc32Poly else c / 2

/-- Iterate the bit step. -/
def crc32Bits : Nat → Nat → Nat
  | c, 0 => c
  | c, n + 1 => crc32Bits (crc32BitStep c) n

/-- Feed one byte into the CRC-32 register. -/
def crc32UpdateByte (c b : Nat) : Nat :=
  crc32Bits (Nat.xor c (b % 256)) 8

namespace Crc32

/-- crc32fast Hasher.new: register starts at 0xFFFFFFFF. -/
def init : Nat := 0xFFFFFFFF

/-- Update the register with a byte sequence (Update for Crc32 in
src/hash/crc32.rs delegates to crc32fast Hasher.update). -/
def update (s : Nat) (data : List Nat) : Nat :=
  data.foldl crc32UpdateByte s

/-- crc32fast Hasher.finalize: the 32-bit checksum value. -/
def checksum (s : Nat) : Nat := Nat.xor s 0xFFFFFFFF

end Crc32

/-- Big-endian 4-byte serialization of a 32-bit value (u32 to_be_bytes). -/
def u32ToBeBytes (n : Nat) : List Nat :=
  [n / 2 ^ 24 % 256, n / 2 ^ 16 % 256, n / 2 ^ 8 % 256, n % 256]

/-- Little-endian 4-byte serialization of a 32-bit value, stated only to
contrast with the big-endian contract of the adapter. -/
def u32ToLeBytes (n : Nat) : List Nat :=
  [n % 256, n / 2 ^ 8 % 256, n / 2 ^ 16 % 256, n / 2 ^ 24 % 256]

namespace Crc32

/-- Embeds FixedOutput.finalize_into for Crc32 from src/hash/crc32.rs:
finalize the underlying checksum and serialize it big-endian
(result.to_be_bytes). -/
def finalizeBytes (s : Nat) : List Nat :=
  u32ToBeBytes (checksum s)

end Crc32

/-- Reference one-shot checksum of a flat byte sequence. -/
def crc32Of (data : List Nat) : Nat :=
  Crc32.checksum (Crc32.update Crc32.init data)

/-- Byte content of the ASCII string test, used as a concrete probe. -/
def testBytes : List Nat := [116, 101, 115, 116]

/-! ### Streaming digest interface (the digest crate Digest trait:
new, update, finalize) -/

/-- A streaming digest algorithm: the capability set the generic file
engine is written over (Digest trait bound in digest_impl.rs). -/
structure DigestAlg where
  State : Type
  init : State
  update : State → List Nat → State
  finalize : State → List Nat

/-- The CRC32 adapter of src/hash/crc32.rs seen through the Digest
interface. -/
def crc32Digest : DigestAlg where
  State := Nat
  init := Crc32.init
  update := Crc32.update
  finalize := Crc32.finalizeBytes

/-- Modelled from the spec: the cryptographic digest primitives (MD5,
SHA-1/2/3, Whirlpool, BLAKE2) are external library collaborators outside
this repository (spec section 1 non-goals); only their streaming
interface and fixed output size (spec section 3) are relevant to the
claims, so they are modelled as byte accumulators truncated or padded to
the advertised output size. -/
def specDigest (size : Nat) : DigestAlg where
  State := List Nat
  init := []
  update := fun s d => s ++ d
  finalize := fun s => (s ++ List.replicate size 0).take size

def md5Digest : DigestAlg := specDigest 16
def sha1Digest : DigestAlg := specDigest 20
def sha2_224Digest : DigestAlg := specDigest 28
def sha2_256Digest : DigestAlg := specDigest 32
def sha2_384Digest : DigestAlg := specDigest 48
def sha2_512Digest : DigestAlg := specDigest 64
def sha3_256Digest : DigestAlg := specDigest 32
def sha3_384Digest : DigestAlg := specDigest 48
def sha3_512Digest : DigestAlg := specDigest 64
def whirlpoolDigest : DigestAlg := specDigest 64
def blake2s256Digest : DigestAlg := specDigest 32
def blake2b512Digest : DigestAlg := specDigest 64

/-! ### File digest engine (src/hash/digest_impl.rs) -/

/-- The file system visible to the engine: a path either resolves to the
byte content of a readable regular file, or is unreadable. -/
def FileSystem : Type := String → Option (List Nat)

/-- BUFFER_SIZE from src/hash/digest_impl.rs. -/
def BUFFER_SIZE : Nat := 4096 * 8

/-- The streaming read loop of hash_file: each File.read call returns the
next at-most-BUFFER_SIZE bytes of the remaining content; the loop stops
when a read returns zero bytes, updating the hasher with exactly the
bytes read each round. -/
def hashLoop (D : DigestAlg) (s : D.State) (l : List Nat) : D.State :=
  if l = [] then s
  else hashLoop D (D.update s (l.take BUFFER_SIZE)) (l.drop BUFFER_SIZE)
termination_by l.length
decreasing_by
  simp only [List.length_drop]
  have hl : 0 < l.length := List.length_pos.mpr (by assumption)
  simp [BUFFER_SIZE]
  omega

/-- The successive chunks handed to the hasher by the streaming read
loop: maximal BUFFER_SIZE-sized slices of the content, in order. -/
def chunksOfBuffer (l : List Nat) : List (List Nat) :=
  if l = [] then []
  else l.take BUFFER_SIZE :: chunksOfBuffer (l.drop BUFFER_SIZE)
termination_by l.length
decreasing_by
  simp only [List.length_drop]
  have hl : 0 < l.length := List.length_pos.mpr (by assumption)
  simp [BUFFER_SIZE]
  omega

/-- Embeds hash_file_whole from src/hash/digest_impl.rs: read the whole
file and feed it to the hasher in a single update call. -/
def hash_file_whole (D : DigestAlg) (fs : FileSystem) (filename : String) :
    Except HashError (List Nat) :=
  match fs filename with
  | none => .error .ioError
  | some data => .ok (D.finalize (D.update D.init data))

/-- Embeds hash_file from src/hash/digest_impl.rs: stat the file; when its
size is at most BUFFER_SIZE delegate to hash_file_whole, otherwise stream
it through the read loop. An unreadable path is an I/O error. -/
def hash_file (D : DigestAlg) (fs : FileSystem) (filename : String) :
    Except HashError (List Nat) :=
  match fs filename with
  | none => .error .ioError
  | some content =>
    if content.length ≤ BUFFER_SIZE then
      hash_file_whole D fs filename
    else
      .ok (D.finalize (hashLoop D D.init content))

/-! ### Textual encodings.  These model the external hex and
data_encoding crates used by hash_file_encoded: lowercase hex, RFC 4648
Base64 (standard alphabet, padded) and RFC 4648 Base32 (padded).
Decoders are the standard inverses, stated for the round-trip claim. -/

/-- Lowercase hexadecimal digit for a value below 16. -/
def hexDigit (n : Nat) : Char :=
  if n < 10 then Char.ofNat (48 + n) else Char.ofNat (87 + n)

def hexEncodeChars : List Nat → List Char
  | [] => []
  | b :: t => hexDigit (b / 16) :: hexDigit (b % 16) :: hexEncodeChars t

/-- Value of a lowercase hexadecimal digit. -/
def hexVal (c : Char) : Option Nat :=
  if 48 ≤ c.toNat ∧ c.toNat ≤ 57 then some (c.toNat - 48)
  else if 97 ≤ c.toNat ∧ c.toNat ≤ 102 then some (c.toNat - 87)
  else none

def hexDecodeChars : List Char → Option (List Nat)
  | [] => some []
  | c1 :: c2 :: t =>
    match hexVal c1, hexVal c2, hexDecodeChars t with
    | some v1, some v2, some rest => some ((16 * v1 + v2) :: rest)
    | _, _, _ => none
  | [_] => none

def hexEncode (h : List Nat) : String := ⟨hexEncodeChars h⟩

def hexDecode (s : String) : Option (List Nat) := hexDecodeChars s.data

/-- The standard Base64 alphabet. -/
def b64Alphabet : List Char :=
  "ABCDEFGHIJKLMNOPQRSTUVWXYZabcdefghijklmnopqrstuvwxyz0123456789+/".data

def b64c (v : Nat) : Char := b64Alphabet.getD v '?'

def b64v (c : Char) : Option Nat := b64Alphabet.indexOf? c

def base64EncodeChars : List Nat → List Char
  | [] => []
  | [b1] => [b64c (b1 / 4), b64c (b1 % 4 * 16), '=', '=']
  | [b1, b2] =>
    [b64c (b1 / 4), b64c (b1 % 4 * 16 + b2 / 16), b64c (b2 % 16 * 4), '=']
  | b1 :: b2 :: b3 :: t =>
    b64c (b1 / 4) :: b64c (b1 % 4 * 16 + b2 / 16) ::
    b64c (b2 % 16 * 4 + b3 / 64) :: b64c (b3 % 64) :: base64EncodeChars t

def base64DecodeChars : List Char → Option (List Nat)
  | [] => some []
  | c1 :: c2 :: c3 :: c4 :: t =>
    if c3 = '=' ∧ c4 = '=' ∧ t = [] then
      match b64v c1, b64v c2 with
      | some v1, some v2 =>
        if v2 % 16 = 0 then some [v1 * 4 + v2 / 16] else none
      | _, _ => none
    else if c4 = '=' ∧ t = [] then
      match b64v c1, b64v c2, b64v c3 with
      | some v1, some v2, some v3 =>
        if v3 % 4 = 0 then some [v1 * 4 + v2 / 16, v2 % 16 * 16 + v3 / 4]
        else none
      | _, _, _ => none
    else
      match b64v c1, b64v c2, b64v c3, b64v c4, base64DecodeChars t with
      | some v1, some v2, some v3, some v4, some rest =>
        some ((v1 * 4 + v2 / 16) :: (v2 % 16 * 16 + v3 / 4) ::
              (v3 % 4 * 64 + v4) :: rest)
      | _, _, _, _, _ => none
  | _ => none

def base64Encode (h : List Nat) : String := ⟨base64EncodeChars h⟩

def base64Decode (s : String) : Option (List Nat) := base64DecodeChars s.data

/-- The RFC 4648 Base32 alphabet. -/
def b32Alphabet : List Char :=
  "ABCDEFGHIJKLMNOPQRSTUVWXYZ234567".data

def b32c (v : Nat) : Char := b32Alphabet.getD v '?'

def b32v (c : Char) : Option Nat := b32Alphabet.indexOf? c

def base32EncodeChars : List Nat → List Char
  | [] => []
  | [b1] => [b32c (b1 / 8), b32c (b1 % 8 * 4), '=', '=', '=', '=', '=', '=']
  | [b1, b2] =>
    [b32c (b1 / 8), b32c (b1 % 8 * 4 + b2 / 64), b32c (b2 / 2 % 32),
     b32c (b2 % 2 * 16), '=', '=', '=', '=']
  | [b1, b2, b3] =>
    [b32c (b1 / 8), b32c (b1 % 8 * 4 + b2 / 64), b32c (b2 / 2 % 32),
     b32c (b2 % 2 * 16 + b3 / 16), b32c (b3 % 16 * 2), '=', '=', '=']
  | [b1, b2, b3, b4] =>
    [b32c (b1 / 8), b32c (b1 % 8 * 4 + b2 / 64), b32c (b2 / 2 % 32),
     b32c (b2 % 2 * 16 + b3 / 16), b32c (b3 % 16 * 2 + b4 / 128),
     b32c (b4 / 4 % 32), b32c (b4 % 4 * 8), '=']
  | b1 :: b2 :: b3 :: b4 :: b5 :: t =>
    b32c (b1 / 8) :: b32c (b1 % 8 * 4 + b2 / 64) :: b32c (b2 / 2 % 32) ::
    b32c (b2 % 2 * 16 + b3 / 16) :: b32c (b3 % 16 * 2 + b4 / 128) ::
    b32c (b4 / 4 % 32) :: b32c (b4 % 4 * 8 + b5 / 32) :: b32c (b5 % 32) ::
    base32EncodeChars t

def base32DecodeChars : List Char → Option (List Nat)
  | [] => some []
  | c1 :: c2 :: c3 :: c4 :: c5 :: c6 :: c7 :: c8 :: t =>
    if c3 = '=' ∧ c4 = '=' ∧ c5 = '=' ∧ c6 = '=' ∧ c7 = '=' ∧ c8 = '=' ∧
        t = [] then
      match b32v c1, b32v c2 with
      | some v1, some v2 =>
        if v2 % 4 = 0 then some [v1 * 8 + v2 / 4] else none
      | _, _ => none
    else if c5 = '=' ∧ c6 = '=' ∧ c7 = '=' ∧ c8 = '=' ∧ t = [] then
      match b32v c1, b32v c2, b32v c3, b32v c4 with
      | some v1, some v2, some v3, some v4 =>
        if v4 % 16 = 0 then
          some [v1 * 8 + v2 / 4, v2 % 4 * 64 + v3 * 2 + v4 / 16]
        else none
      | _, _, _, _ => none
    else if c6 = '=' ∧ c7 = '=' ∧ c8 = '=' ∧ t = [] then
      match b32v c1, b32v c2, b32v c3, b32v c4, b32v c5 with
      | some v1, some v2, some v3, some v4, some v5 =>
        if v5 % 2 = 0 then
          some [v1 * 8 + v2 / 4, v2 % 4 * 64 + v3 * 2 + v4 / 16,
                v4 % 16 * 16 + v5 / 2]
        else none
      | _, _, _, _, _ => none
    else if c8 = '=' ∧ t = [] then
      match b32v c1, b32v c2, b32v c3, b32v c4, b32v c5, b32v c6, b32v c7 with
      | some v1, some v2, some v3, some v4, some v5, some v6, some v7 =>
        if v7 % 8 = 0 then
          some [v1 * 8 + v2 / 4, v2 % 4 * 64 + v3 * 2 + v4 / 16,
                v4 % 16 * 16 + v5 / 2, v5 % 2 * 128 + v6 * 4 + v7 / 8]
        else none
      | _, _, _, _, _, _, _ => none
    else
      match b32v c1, b32v c2, b32v c3, b32v c4, b32v c5, b32v c6, b32v c7,
            b32v c8, base32DecodeChars t with
      | some v1, some v2, some v3, some v4, some v5, some v6, some v7,
        some v8, some rest =>
        some ((v1 * 8 + v2 / 4) :: (v2 % 4 * 64 + v3 * 2 + v4 / 16) ::
              (v4 % 16 * 16 + v5 / 2) :: (v5 % 2 * 128 + v6 * 4 + v7 / 8) ::
              (v7 % 8 * 32 + v8) :: rest)
      | _, _, _, _, _, _, _, _, _ => none
  | _ => none

def base32Encode (h : List Nat) : String := ⟨base32EncodeChars h⟩

def base32Decode (s : String) : Option (List Nat) := base32DecodeChars s.data

/-! ### Decimal formatting for the U32 encoding.  Models the Rust
formatter invocation with a zero-pad width of ten applied to a u32. -/

/-- ASCII digit character for a value below 10. -/
def digitChar (d : Nat) : Char := Char.ofNat (48 + d)

/-- Decimal digit characters of a natural number, most significant
first. -/
def natDigits (n : Nat) : List Char :=
  if h : n < 10 then [digitChar n]
  else
    have : n / 10 < n := Nat.div_lt_self (by omega) (by omega)
    natDigits (n / 10) ++ [digitChar (n % 10)]
termination_by n

/-- Zero-pad the decimal rendering on the left to ten characters: the
embedding of the format with a 010 width specifier. -/
def u32FormatChars (n : Nat) : List Char :=
  List.replicate (10 - (natDigits n).length) '0' ++ natDigits n

def u32Format (n : Nat) : String := ⟨u32FormatChars n⟩

/-- Numeric value denoted by a list of decimal digit characters. -/
def decimalValue (cs : List Char) : Nat :=
  cs.foldl (fun acc c => 10 * acc + (c.toNat - 48)) 0

/-- BigEndian read_u32 from the byteorder crate: the unsigned 32-bit
integer formed by the first four bytes, big-endian. -/
def readU32BE (h : List Nat) : Nat :=
  h.getD 0 0 * 2 ^ 24 + h.getD 1 0 * 2 ^ 16 + h.getD 2 0 * 2 ^ 8 + h.getD 3 0

/-! ### Encoding dispatch and hash_file_encoded
(src/hash/digest_impl.rs) -/

/-- The encoding match inside hash_file_encoded from
src/hash/digest_impl.rs, applied to the raw digest: Hex, Base64 and
Base32 always succeed; U32 first checks that the digest is exactly four
bytes and otherwise reports the defensive mismatch error, then reads the
bytes big-endian and renders them as a ten-digit zero-padded decimal. -/
def encode_digest (encoding : OutputEncoding) (h : List Nat) :
    Except HashError String :=
  match encoding with
  | .Hex => .ok (hexEncode h)
  | .Base64 => .ok (base64Encode h)
  | .Base32 => .ok (base32Encode h)
  | .U32 =>
    if h.length ≠ 4 then .error .encodingMismatch
    else .ok (u32Format (readU32BE h))

/-- Embeds hash_file_encoded from src/hash/digest_impl.rs: compute the
raw digest of the file, then encode it. -/
def hash_file_encoded (D : DigestAlg) (fs : FileSystem) (filename : String)
    (encoding : OutputEncoding) : Except HashError String :=
  match hash_file D fs filename with
  | .error e => .error e
  | .ok h => encode_digest encoding h

/-! ### Dispatcher (src/hash/algorithms.rs) -/

/-- Embeds call_hasher from src/hash/algorithms.rs: reject any
algorithm/encoding pair violating the CRC32/U32 pairing rule before any
file access, then dispatch to hash_file_encoded instantiated at the
selected algorithm (the CRC32 arm passes U32 explicitly). -/
def call_hasher (algo : HashAlgorithm) (encoding : OutputEncoding)
    (fs : FileSystem) (path : String) : Except HashError String :=
  if (algo = .CRC32 ∧ encoding ≠ .U32) ∨ (algo ≠ .CRC32 ∧ encoding = .U32)
  then .error .configError
  else
    match algo with
    | .CRC32 => hash_file_encoded crc32Digest fs path .U32
    | .MD5 => hash_file_encoded md5Digest fs path encoding
    | .SHA1 => hash_file_encoded sha1Digest fs path encoding
    | .SHA2_224 => hash_file_encoded sha2_224Digest fs path encoding
    | .SHA2_256 => hash_file_encoded sha2_256Digest fs path encoding
    | .SHA2_384 => hash_file_encoded sha2_384Digest fs path encoding
    | .SHA2_512 => hash_file_encoded sha2_512Digest fs path encoding
    | .SHA3_256 => hash_file_encoded sha3_256Digest fs path encoding
    | .SHA3_384 => hash_file_encoded sha3_384Digest fs path encoding
    | .SHA3_512 => hash_file_encoded sha3_512Digest fs path encoding
    | .Whirlpool => hash_file_encoded whirlpoolDigest fs path encoding
    | .Blake2S256 => hash_file_encoded blake2s256Digest fs path encoding
    | .Blake2B512 => hash_file_encoded blake2b512Digest fs path encoding

/-- Whether a hashing result is a success. -/
def isOkE (r : Except HashError String) : Bool :=
  match r with
  | .ok _ => true
  | .error _ => false

/-! ### Coordinator (src/core/worker.rs).  Output is modelled as an
ordered event list: out events are println calls on standard output
(one hash line per file), err events are the per-file eprintln error
diagnostics, dbg events are the eprintln diagnostics gated on
debug_mode (both err and dbg go to standard error in the program;
the constructor records which kind of line it is).  Progress display
(the ProgressCoordinator) draws on standard error only and is not
modelled. -/

/-- One emitted line. -/
inductive Line where
  | out (s : String)
  | err (s : String)
  | dbg (s : String)
deriving DecidableEq, Repr

/-- Embeds the fields of ConfigSettings from src/cli/config.rs that the
worker reads (supplied_paths, limit_num and case_sensitive are consumed
by the path-resolution collaborator before the worker loop and are not
modelled). -/
structure ConfigSettings where
  debug_mode : Bool
  exclude_fn : Bool
  single_thread : Bool
  no_progress : Bool
  algorithm : HashAlgorithm
  encoding : OutputEncoding

/-- Rendered error message for a failed file, as in the worker eprintln
(the anyhow message text is abbreviated to the error kind). -/
def fileErrorLine (path : String) (e : HashError) : String :=
  "File error for " ++ path ++ ": " ++
    (match e with
     | .configError => "CRC32 must use U32 encoding, and U32 encoding can only be used with CRC32"
     | .ioError => "unable to open or read the file"
     | .encodingMismatch => "When U32 is requested, hash size must be 4 bytes")

/-- Successful output line: the hash alone under exclude_fn, otherwise
hash then path. -/
def hashLine (c : ConfigSettings) (h : String) (path : String) : String :=
  if c.exclude_fn then h else h ++ " " ++ path

/-- The per-path body of the worker loops: hash the file and render
either the stdout hash line or the stderr error line. -/
def resultLine (c : ConfigSettings) (fs : FileSystem) (path : String) : Line :=
  match call_hasher c.algorithm c.encoding fs path with
  | .ok h => .out (hashLine c h path)
  | .error e => .err (fileErrorLine path e)

/-- Embeds the loop of file_hashes_st from src/core/worker.rs: process
paths one at a time in order, print the hash line or the error line for
each, and accumulate whether any file failed (the error arm of the match
sets the had_error flag). -/
def stLoop (c : ConfigSettings) (fs : FileSystem) :
    List String → List Line × Bool
  | [] => ([], false)
  | p :: rest =>
    let r := stLoop c fs rest
    (resultLine c fs p :: r.1,
      (!isOkE (call_hasher c.algorithm c.encoding fs p)) || r.2)

/-- Embeds file_hashes_st from src/core/worker.rs, including its
debug-mode diagnostics; returns the emitted lines and the had_error
flag. -/
def file_hashes_st (c : ConfigSettings) (fs : FileSystem)
    (paths : List String) : List Line × Bool :=
  let dbg : List Line :=
    if c.debug_mode then [.dbg "Single-threaded mode", .dbg "Algorithm"]
    else []
  (dbg ++ (stLoop c fs paths).1, (stLoop c fs paths).2)

/-- Embeds file_hashes_mt from src/core/worker.rs: the rayon par_iter
map over paths collects per-path results into a vector in input-index
order (rayon collect on an indexed parallel iterator preserves order),
then a sequential loop prints each result and accumulates had_error.
Thread interleaving affects only the unmodelled progress display. -/
def file_hashes_mt (c : ConfigSettings) (fs : FileSystem)
    (paths : List String) : List Line × Bool :=
  let dbg : List Line :=
    if c.debug_mode then [.dbg "Multi-threaded mode", .dbg "Algorithm"]
    else []
  let results := paths.map
    (fun p => (p, call_hasher c.algorithm c.encoding fs p))
  let folded := results.foldr
    (fun pr acc =>
      match pr.2 with
      | .ok h => (Line.out (hashLine c h pr.1) :: acc.1, acc.2)
      | .error e => (Line.err (fileErrorLine pr.1 e) :: acc.1, true))
    ([], false)
  (dbg ++ folded.1, folded.2)

/-- Process-level outcome: failure models the exit-status-1 path taken
when any file failed. -/
inductive WorkerOutcome where
  | success
  | failure
deriving DecidableEq, Repr

/-- Embeds worker_func from src/core/worker.rs, taking the resolved path
list (the get_required_filenames collaborator output) as input: an empty
list returns success immediately with only an optional debug
diagnostic; otherwise the single-threaded engine is chosen when the
single-thread flag is set or there is exactly one path, and a true
had_error flag turns into the failure outcome. -/
def worker_func (c : ConfigSettings) (fs : FileSystem)
    (paths : List String) : WorkerOutcome × List Line :=
  let dbg0 : List Line :=
    if c.debug_mode then [.dbg "Config"] else []
  if paths.isEmpty then
    (.success, dbg0 ++ (if c.debug_mode then [.dbg "No files found"] else []))
  else
    let dbg1 : List Line :=
      if c.debug_mode then [.dbg "Files to hash"] else []
    let r : List Line × Bool :=
      if c.single_thread || paths.length == 1 then file_hashes_st c fs paths
      else file_hashes_mt c fs paths
    (if r.2 then .failure else .success, dbg0 ++ dbg1 ++ r.1)

/-- The standard-output lines among the emitted lines. -/
def outputsOf (ls : List Line) : List String :=
  ls.filterMap (fun l => match l with | .out s => some s | _ => none)

/-- The per-file error lines among the emitted lines. -/
def errorsOf (ls : List Line) : List String :=
  ls.filterMap (fun l => match l with | .err s => some s | _ => none)

/-- The per-file result lines (success or error), debug diagnostics
removed. -/
def resultLinesOf (ls : List Line) : List Line :=
  ls.filter (fun l => match l with | .dbg _ => false | _ => true)

/-- The encoded hash of a successfully hashed file (unspecified filler on
failure; used only to name the value inside ok results). -/
def okHash (c : ConfigSettings) (fs : FileSystem) (p : String) : String :=
  match call_hasher c.algorithm c.encoding fs p with
  | .ok h => h
  | .error _ => ""

/-- A tiny concrete file system used to instantiate theorems at concrete
inputs. -/
def demoFS : FileSystem := fun p =>
  if p = "a.txt" then some testBytes
  else if p = "b.txt" then some [0, 1, 2]
  else none

/-- A concrete configuration used to instantiate theorems. -/
def demoConfig : ConfigSettings where
  debug_mode := false
  exclude_fn := false
  single_thread := true
  no_progress := true
  algorithm := .SHA3_256
  encoding := .Hex

/-! ## Theorems -/

example : crc32Of testBytes = 3632233996 := by decide

/-! ### Streaming lemmas -/

theorem hashLoop_eq_foldl (D : DigestAlg) (s : D.State) (l : List Nat) :
    hashLoop D s l = (chunksOfBuffer l).foldl D.update s := by
  induction l using chunksOfBuffer.induct generalizing s with
  | case1 => rw [hashLoop, chunksOfBuffer]; simp
  | case2 l hl ih =>
    rw [hashLoop, if_neg hl, chunksOfBuffer, if_neg hl, List.foldl_cons, ih]

theorem chunksOfBuffer_flatten (l : List Nat) :
    (chunksOfBuffer l).flatten = l := by
  induction l using chunksOfBuffer.induct with
  | case1 => simp [chunksOfBuffer]
  | case2 l hl ih =>
    rw [chunksOfBuffer, if_neg hl]
    simp only [List.flatten_cons, ih, List.take_append_drop]

theorem chunksOfBuffer_mem (l : List Nat) :
    ∀ ch ∈ chunksOfBuffer l, ch ≠ [] ∧ ch.length ≤ BUFFER_SIZE := by
  induction l using chunksOfBuffer.induct with
  | case1 => simp [chunksOfBuffer]
  | case2 l hl ih =>
    rw [chunksOfBuffer, if_neg hl]
    intro ch hch
    rcases List.mem_cons.mp hch with h | h
    · subst h
      constructor
      · have hpos : 0 < l.length := List.length_pos.mpr hl
        have : (l.take BUFFER_SIZE).length = min BUFFER_SIZE l.length :=
          List.length_take _ _
        intro hempty
        rw [hempty] at this
        simp [BUFFER_SIZE] at this
        omega
      · have : (l.take BUFFER_SIZE).length = min BUFFER_SIZE l.length :=
          List.length_take _ _
        omega
    · exact ih ch h

theorem hashLoop_eq_update (D : DigestAlg)
    (hom : ∀ s a b, D.update (D.update s a) b = D.update s (a ++ b)) :
    ∀ (n : Nat) (s : D.State) (l : List Nat), l.length ≤ n → l ≠ [] →
      hashLoop D s l = D.update s l := by
  intro n
  induction n with
  | zero =>
    intro s l hlen hne
    exact absurd (List.length_eq_zero.mp (Nat.le_zero.mp hlen)) hne
  | succ n ih =>
    intro s l hlen hne
    rw [hashLoop, if_neg hne]
    by_cases hd : l.drop BUFFER_SIZE = []
    · rw [hashLoop, if_pos hd]
      have hle : l.length ≤ BUFFER_SIZE := List.drop_eq_nil_iff.mp hd
      rw [List.take_of_length_le hle]
    · have hlen2 : (l.drop BUFFER_SIZE).length ≤ n := by
        rw [List.length_drop]
        have hpos : 0 < l.length := List.length_pos.mpr hne
        have hB : 0 < BUFFER_SIZE := by norm_num [BUFFER_SIZE]
        omega
      rw [ih (D.update s (l.take BUFFER_SIZE)) (l.drop BUFFER_SIZE) hlen2 hd,
          hom, List.take_append_drop]

theorem hash_file_some (D : DigestAlg) (fs : FileSystem) (p : String)
    (c : List Nat) (h : fs p = some c) :
    hash_file D fs p =
      .ok (D.finalize (if c.length ≤ BUFFER_SIZE then D.update D.init c
                       else hashLoop D D.init c)) := by
  by_cases hle : c.length ≤ BUFFER_SIZE <;>
    simp [hash_file, hash_file_whole, h, hle]

theorem hash_file_none (D : DigestAlg) (fs : FileSystem) (p : String)
    (h : fs p = none) : hash_file D fs p = .error .ioError := by
  simp [hash_file, h]

/-! ### Claim C3: the CRC32 adapter -/

/-- C3: for every sequence of input chunks fed to the Crc32 adapter via
update, finalize produces exactly the 4-byte big-endian serialization of
the underlying 32-bit CRC-32 checksum of the concatenated input — not the
little-endian one — satisfying the fixed 4-byte output contract. -/
theorem C3_crc32_adapter_big_endian (chunkList : List (List Nat)) :
    Crc32.finalizeBytes (chunkList.foldl Crc32.update Crc32.init) =
      u32ToBeBytes (crc32Of chunkList.flatten)
    ∧ (Crc32.finalizeBytes (chunkList.foldl Crc32.update Crc32.init)).length = 4
    ∧ Crc32.finalizeBytes (Crc32.update Crc32.init testBytes) ≠
        u32ToLeBytes (crc32Of testBytes) := by
  have key : Crc32.update Crc32.init chunkList.flatten =
      chunkList.foldl Crc32.update Crc32.init := by
    simp only [Crc32.update, List.foldl_flatten]
    rfl
  refine ⟨?_, ?_, ?_⟩
  · rw [crc32Of, key]
    rfl
  · simp [Crc32.finalizeBytes, u32ToBeBytes]
  · decide

/-! ### Claim C4: chunked streaming refines whole-file hashing -/

/-- C4: for every file content and every digest algorithm (any streaming
digest whose update is a homomorphism over byte-sequence concatenation,
the contract of the digest interface), the chunked streaming computation
of hash_file and the whole-file single-update computation of
hash_file_whole produce identical results on every file system and path;
files of every size, in particular at the streaming threshold and one
byte either side, hash identically under either strategy. -/
theorem C4_chunked_eq_whole (D : DigestAlg)
    (hom : ∀ s a b, D.update (D.update s a) b = D.update s (a ++ b))
    (fs : FileSystem) (filename : String) :
    hash_file D fs filename = hash_file_whole D fs filename := by
  cases hfs : fs filename with
  | none =>
    rw [hash_file_none D fs filename hfs]
    simp [hash_file_whole, hfs]
  | some c =>
    rw [hash_file_some D fs filename c hfs]
    by_cases hle : c.length ≤ BUFFER_SIZE
    · simp [hash_file_whole, hfs, hle]
    · have hne : c ≠ [] := by
        intro hc
        subst hc
        simp [BUFFER_SIZE] at hle
      rw [if_neg hle,
        hashLoop_eq_update D hom c.length D.init c le_rfl hne]
      simp [hash_file_whole, hfs]

/-- Witness for C4: the CRC32 digest satisfies the homomorphism
hypothesis (by List.foldl_append) and the equality holds at a concrete
file. -/
theorem C4_chunked_eq_whole_witness :
    hash_file crc32Digest demoFS "a.txt" =
      hash_file_whole crc32Digest demoFS "a.txt" :=
  C4_chunked_eq_whole crc32Digest
    (fun s a b => (List.foldl_append crc32UpdateByte s a b).symm)
    demoFS "a.txt"

/-! ### Claim C5: dual read strategy of the file digest engine -/

/-- C5: for every readable file, hash_file feeds the whole content to the
algorithm in a single update call when the size is at most the 32 KiB
BUFFER_SIZE threshold; otherwise it streams the content in reads of at
most BUFFER_SIZE bytes, updating with exactly the bytes returned by each
read (the chunks are nonempty, at most BUFFER_SIZE long, and concatenate
to exactly the file content, so no stale buffer content beyond what was
read is hashed), stopping when a read returns zero bytes. -/
theorem C5_read_strategy (D : DigestAlg) (fs : FileSystem) (p : String)
    (content : List Nat) (h : fs p = some content) :
    (content.length ≤ BUFFER_SIZE →
      hash_file D fs p = .ok (D.finalize (D.update D.init content)))
    ∧ (BUFFER_SIZE < content.length →
      hash_file D fs p =
        .ok (D.finalize ((chunksOfBuffer content).foldl D.update D.init))
      ∧ (chunksOfBuffer content).flatten = content
      ∧ ∀ ch ∈ chunksOfBuffer content, ch ≠ [] ∧ ch.length ≤ BUFFER_SIZE) := by
  constructor
  · intro hle
    rw [hash_file_some D fs p content h, if_pos hle]
  · intro hgt
    have hle : ¬ content.length ≤ BUFFER_SIZE := by omega
    refine ⟨?_, chunksOfBuffer_flatten content, chunksOfBuffer_mem content⟩
    rw [hash_file_some D fs p content h, if_neg hle, hashLoop_eq_foldl]

/-- Witness for C5 at a concrete readable file below the threshold. -/
theorem C5_read_strategy_witness :
    hash_file crc32Digest demoFS "a.txt" =
      .ok (crc32Digest.finalize
            (crc32Digest.update crc32Digest.init testBytes)) :=
  (C5_read_strategy crc32Digest demoFS "a.txt" testBytes rfl).1 (by decide)

/-! ### Decimal formatting lemmas -/

theorem digitChar_toNat : ∀ d, d < 10 → (digitChar d).toNat = 48 + d := by
  decide

theorem natDigits_length_le :
    ∀ (n k : Nat), 1 ≤ k → n < 10 ^ k → (natDigits n).length ≤ k := by
  intro n
  induction n using natDigits.induct with
  | case1 n h =>
    intro k hk _
    rw [natDigits, dif_pos h]
    simpa using hk
  | case2 n h hrec ih =>
    intro k hk hn
    rw [natDigits, dif_neg h]
    have hk2 : 2 ≤ k := by
      by_contra hlt
      have hk1 : k = 1 := by omega
      subst hk1
      simp at hn
      omega
    have h10 : (10 : Nat) ^ k = 10 ^ (k - 1) * 10 := by
      rw [← pow_succ]
      congr 1
      omega
    have hdiv : n / 10 < 10 ^ (k - 1) := by
      rw [Nat.div_lt_iff_lt_mul (by norm_num)]
      omega
    have := ih (k - 1) (by omega) hdiv
    simp only [List.length_append, List.length_cons, List.length_nil]
    omega

theorem decimalValue_append_digit (cs : List Char) (c : Char) :
    decimalValue (cs ++ [c]) = 10 * decimalValue cs + (c.toNat - 48) := by
  simp [decimalValue, List.foldl_append]

theorem decimalValue_natDigits : ∀ n, decimalValue (natDigits n) = n := by
  intro n
  induction n using natDigits.induct with
  | case1 n h =>
    rw [natDigits, dif_pos h]
    have hd := digitChar_toNat n h
    simp [decimalValue, hd]
  | case2 n h hrec ih =>
    rw [natDigits, dif_neg h, decimalValue_append_digit, ih,
      digitChar_toNat (n % 10) (by omega)]
    omega

theorem decimalValue_replicate_zero (k : Nat) (cs : List Char) :
    decimalValue (List.replicate k '0' ++ cs) = decimalValue cs := by
  induction k with
  | zero => simp
  | succ k ih =>
    rw [List.replicate_succ, List.cons_append]
    have hstep :
        decimalValue (( '0' : Char) :: (List.replicate k '0' ++ cs)) =
          decimalValue (List.replicate k '0' ++ cs) := by
      simp [decimalValue]
    rw [hstep, ih]

theorem natDigits_digit_bounds :
    ∀ n, ∀ c ∈ natDigits n, 48 ≤ c.toNat ∧ c.toNat ≤ 57 := by
  intro n
  induction n using natDigits.induct with
  | case1 n h =>
    rw [natDigits, dif_pos h]
    intro c hc
    rcases List.mem_singleton.mp hc with rfl
    have := digitChar_toNat n h
    omega
  | case2 n h hrec ih =>
    rw [natDigits, dif_neg h]
    intro c hc
    rcases List.mem_append.mp hc with hc | hc
    · exact ih c hc
    · rcases List.mem_singleton.mp hc with rfl
      have := digitChar_toNat (n % 10) (by omega)
      omega

theorem u32Format_length (n : Nat) (hn : n < 2 ^ 32) :
    (u32Format n).length = 10 := by
  have h2 : (2 : Nat) ^ 32 = 4294967296 := by norm_num
  have h10 : (10 : Nat) ^ 10 = 10000000000 := by norm_num
  have hlen : (natDigits n).length ≤ 10 :=
    natDigits_length_le n 10 (by norm_num) (by omega)
  show (u32FormatChars n).length = 10
  rw [u32FormatChars]
  simp only [List.length_append, List.length_replicate]
  omega

theorem u32Format_value (n : Nat) :
    decimalValue (u32Format n).data = n := by
  show decimalValue (u32FormatChars n) = n
  rw [u32FormatChars, decimalValue_replicate_zero, decimalValue_natDigits]

theorem u32Format_digit_bounds (n : Nat) :
    ∀ ch ∈ (u32Format n).data, 48 ≤ ch.toNat ∧ ch.toNat ≤ 57 := by
  show ∀ ch ∈ u32FormatChars n, _
  rw [u32FormatChars]
  intro ch hch
  rcases List.mem_append.mp hch with hc | hc
  · rcases List.eq_of_mem_replicate hc with rfl
    exact ⟨by decide, by decide⟩
  · exact natDigits_digit_bounds n ch hc

theorem readU32BE_lt (h : List Nat) (hb : ∀ b ∈ h, b < 256) :
    readU32BE h < 2 ^ 32 := by
  have hg : ∀ i, h.getD i 0 < 256 := by
    intro i
    rcases hgi : h[i]? with _ | b
    · simp [List.getD, hgi]
    · have hmem : b ∈ h := List.getElem?_mem hgi
      have := hb b hmem
      simp [List.getD, hgi]
      omega
  have h0 := hg 0
  have h1 := hg 1
  have h2 := hg 2
  have h3 := hg 3
  rw [readU32BE]
  have e24 : (2 : Nat) ^ 24 = 16777216 := by norm_num
  have e16 : (2 : Nat) ^ 16 = 65536 := by norm_num
  have e8 : (2 : Nat) ^ 8 = 256 := by norm_num
  have e32 : (2 : Nat) ^ 32 = 4294967296 := by norm_num
  rw [e24, e16, e8, e32]
  omega

/-! ### Claim C2: the U32 encoding -/

/-- C2: for every raw digest, the U32 arm of the encoding step fails with
the mismatch error unless the digest is exactly 4 bytes; on a 4-byte
digest it succeeds with the decimal rendering of the big-endian 32-bit
read of the bytes, zero-padded on the left to exactly 10 characters (the
full u32 range fits in 10 digits): the output has length 10, consists of
decimal digit characters, and denotes exactly the big-endian value. -/
theorem C2_u32_digest_encoding (h : List Nat) (hb : ∀ b ∈ h, b < 256) :
    (h.length ≠ 4 → encode_digest .U32 h = .error .encodingMismatch)
    ∧ (h.length = 4 →
        encode_digest .U32 h = .ok (u32Format (readU32BE h))
        ∧ readU32BE h < 2 ^ 32
        ∧ (u32Format (readU32BE h)).length = 10
        ∧ decimalValue (u32Format (readU32BE h)).data = readU32BE h
        ∧ ∀ ch ∈ (u32Format (readU32BE h)).data,
            48 ≤ ch.toNat ∧ ch.toNat ≤ 57) := by
  constructor
  · intro hne
    simp [encode_digest, hne]
  · intro h4
    have hlt := readU32BE_lt h hb
    exact ⟨by simp [encode_digest, h4], hlt, u32Format_length _ hlt,
      u32Format_value _, u32Format_digit_bounds _⟩

/-- Witness for C2 at the CRC-32 digest of the probe bytes. -/
theorem C2_u32_digest_encoding_witness :
    encode_digest .U32 [216, 127, 126, 12] =
      .ok (u32Format (readU32BE [216, 127, 126, 12])) :=
  ((C2_u32_digest_encoding [216, 127, 126, 12] (by decide)).2 (by decide)).1

/-! ### Dispatcher lemmas -/

theorem crc32_finalize_length (st : Nat) :
    (Crc32.finalizeBytes st).length = 4 := by
  simp [Crc32.finalizeBytes, u32ToBeBytes]

theorem isOkE_ok (r : Except HashError String) (h : isOkE r = true) :
    ∃ s, r = .ok s := by
  cases r with
  | ok s => exact ⟨s, rfl⟩
  | error e => simp [isOkE] at h

theorem hash_file_encoded_none (D : DigestAlg) (fs : FileSystem)
    (p : String) (enc : OutputEncoding) (hc : fs p = none) :
    hash_file_encoded D fs p enc = .error .ioError := by
  rw [hash_file_encoded, hash_file_none D fs p hc]

theorem hash_file_encoded_isOk_nonU32 (D : DigestAlg) (fs : FileSystem)
    (p : String) (enc : OutputEncoding) (c : List Nat)
    (hc : fs p = some c) (henc : enc ≠ .U32) :
    isOkE (hash_file_encoded D fs p enc) = true := by
  rw [hash_file_encoded, hash_file_some D fs p c hc]
  cases enc with
  | U32 => exact absurd rfl henc
  | Hex => simp [encode_digest, isOkE]
  | Base64 => simp [encode_digest, isOkE]
  | Base32 => simp [encode_digest, isOkE]

theorem hash_file_encoded_isOk_crc (fs : FileSystem) (p : String)
    (c : List Nat) (hc : fs p = some c) :
    isOkE (hash_file_encoded crc32Digest fs p .U32) = true := by
  rw [hash_file_encoded, hash_file_some crc32Digest fs p c hc]
  have hd : (crc32Digest.finalize
      (if c.length ≤ BUFFER_SIZE then crc32Digest.update crc32Digest.init c
       else hashLoop crc32Digest crc32Digest.init c)).length = 4 :=
    crc32_finalize_length _
  simp [encode_digest, hd, isOkE]

theorem call_hasher_guard (algo : HashAlgorithm) (enc : OutputEncoding)
    (hviol : ¬((algo = .CRC32) ↔ (enc = .U32))) (fs : FileSystem)
    (p : String) : call_hasher algo enc fs p = .error .configError := by
  rw [call_hasher.eq_def, if_pos (by tauto)]

/-! ### Claim C1: the pairing invariant of the dispatcher -/

/-- C1: for every algorithm/encoding pair, call_hasher succeeds on a
readable file exactly when the algorithm is CRC32 if and only if the
encoding is U32; when the pairing is violated the result is the
configuration error for every file system (in particular the error is
produced before any file access: it does not depend on the file system at
all). -/
theorem C1_pairing_invariant (algo : HashAlgorithm) (enc : OutputEncoding) :
    (∀ (fs : FileSystem) (path : String) (content : List Nat),
      fs path = some content →
      (isOkE (call_hasher algo enc fs path) = true ↔
        ((algo = .CRC32) ↔ (enc = .U32))))
    ∧ (¬((algo = .CRC32) ↔ (enc = .U32)) →
        ∀ (fs : FileSystem) (path : String),
          call_hasher algo enc fs path = .error .configError) := by
  constructor
  · intro fs path content hc
    by_cases hpair : (algo = .CRC32) ↔ (enc = .U32)
    · refine iff_of_true ?_ hpair
      rw [call_hasher.eq_def, if_neg (by tauto)]
      by_cases halgo : algo = .CRC32
      · subst halgo
        have henc : enc = .U32 := hpair.mp rfl
        subst henc
        exact hash_file_encoded_isOk_crc fs path content hc
      · have henc : enc ≠ .U32 := fun he => halgo (hpair.mpr he)
        cases algo with
        | CRC32 => exact absurd rfl halgo
        | MD5 => exact hash_file_encoded_isOk_nonU32 _ fs path enc content hc henc
        | SHA1 => exact hash_file_encoded_isOk_nonU32 _ fs path enc content hc henc
        | SHA2_224 => exact hash_file_encoded_isOk_nonU32 _ fs path enc content hc henc
        | SHA2_256 => exact hash_file_encoded_isOk_nonU32 _ fs path enc content hc henc
        | SHA2_384 => exact hash_file_encoded_isOk_nonU32 _ fs path enc content hc henc
        | SHA2_512 => exact hash_file_encoded_isOk_nonU32 _ fs path enc content hc henc
        | SHA3_256 => exact hash_file_encoded_isOk_nonU32 _ fs path enc content hc henc
        | SHA3_384 => exact hash_file_encoded_isOk_nonU32 _ fs path enc content hc henc
        | SHA3_512 => exact hash_file_encoded_isOk_nonU32 _ fs path enc content hc henc
        | Whirlpool => exact hash_file_encoded_isOk_nonU32 _ fs path enc content hc henc
        | Blake2S256 => exact hash_file_encoded_isOk_nonU32 _ fs path enc content hc henc
        | Blake2B512 => exact hash_file_encoded_isOk_nonU32 _ fs path enc content hc henc
    · refine iff_of_false ?_ hpair
      rw [call_hasher_guard algo enc hpair fs path]
      simp [isOkE]
  · intro hviol fs path
    exact call_hasher_guard algo enc hviol fs path

/-- Witness for C1: the valid pairing succeeds on a readable file and an
invalid pairing is rejected with the configuration error. -/
theorem C1_pairing_invariant_witness :
    isOkE (call_hasher .CRC32 .U32 demoFS "a.txt") = true
    ∧ call_hasher .MD5 .U32 demoFS "a.txt" = .error .configError :=
  ⟨((C1_pairing_invariant .CRC32 .U32).1 demoFS "a.txt" testBytes rfl).mpr
      (by simp),
   (C1_pairing_invariant .MD5 .U32).2 (by simp) demoFS "a.txt"⟩

/-! ### Claim C9: the defensive 4-byte check is unreachable for CRC32 -/

/-- C9: for every file system and path, dispatching CRC32 with U32 never
produces the defensive encoding-mismatch error of hash_file_encoded: the
result is either a successful hash or the per-file I/O error, because the
Crc32 adapter output size is fixed at 4 bytes. -/
theorem C9_crc32_u32_mismatch_unreachable (fs : FileSystem) (path : String) :
    ((∃ s, call_hasher .CRC32 .U32 fs path = .ok s)
      ∨ call_hasher .CRC32 .U32 fs path = .error .ioError)
    ∧ ∀ st : Nat, (Crc32.finalizeBytes st).length = 4 := by
  constructor
  · cases hfs : fs path with
    | none =>
      right
      rw [call_hasher.eq_def, if_neg (by simp)]
      exact hash_file_encoded_none crc32Digest fs path .U32 hfs
    | some c =>
      left
      have hok : isOkE (call_hasher .CRC32 .U32 fs path) = true := by
        rw [call_hasher.eq_def, if_neg (by simp)]
        exact hash_file_encoded_isOk_crc fs path c hfs
      exact isOkE_ok _ hok
  · exact crc32_finalize_length

/-! ### Coordinator lemmas -/

theorem call_hasher_valid_none (algo : HashAlgorithm) (enc : OutputEncoding)
    (hpair : (algo = .CRC32) ↔ (enc = .U32)) (fs : FileSystem) (p : String)
    (hfs : fs p = none) : call_hasher algo enc fs p = .error .ioError := by
  rw [call_hasher.eq_def, if_neg (by tauto)]
  cases algo with
  | CRC32 => exact hash_file_encoded_none crc32Digest fs p .U32 hfs
  | MD5 => exact hash_file_encoded_none _ fs p enc hfs
  | SHA1 => exact hash_file_encoded_none _ fs p enc hfs
  | SHA2_224 => exact hash_file_encoded_none _ fs p enc hfs
  | SHA2_256 => exact hash_file_encoded_none _ fs p enc hfs
  | SHA2_384 => exact hash_file_encoded_none _ fs p enc hfs
  | SHA2_512 => exact hash_file_encoded_none _ fs p enc hfs
  | SHA3_256 => exact hash_file_encoded_none _ fs p enc hfs
  | SHA3_384 => exact hash_file_encoded_none _ fs p enc hfs
  | SHA3_512 => exact hash_file_encoded_none _ fs p enc hfs
  | Whirlpool => exact hash_file_encoded_none _ fs p enc hfs
  | Blake2S256 => exact hash_file_encoded_none _ fs p enc hfs
  | Blake2B512 => exact hash_file_encoded_none _ fs p enc hfs

theorem call_hasher_valid_some (algo : HashAlgorithm) (enc : OutputEncoding)
    (hpair : (algo = .CRC32) ↔ (enc = .U32)) (fs : FileSystem) (p : String)
    (content : List Nat) (hc : fs p = some content) :
    isOkE (call_hasher algo enc fs p) = true := by
  rw [call_hasher.eq_def, if_neg (by tauto)]
  by_cases halgo : algo = .CRC32
  · subst halgo
    have henc : enc = .U32 := hpair.mp rfl
    subst henc
    exact hash_file_encoded_isOk_crc fs p content hc
  · have henc : enc ≠ .U32 := fun he => halgo (hpair.mpr he)
    cases algo with
    | CRC32 => exact absurd rfl halgo
    | MD5 => exact hash_file_encoded_isOk_nonU32 _ fs p enc content hc henc
    | SHA1 => exact hash_file_encoded_isOk_nonU32 _ fs p enc content hc henc
    | SHA2_224 => exact hash_file_encoded_isOk_nonU32 _ fs p enc content hc henc
    | SHA2_256 => exact hash_file_encoded_isOk_nonU32 _ fs p enc content hc henc
    | SHA2_384 => exact hash_file_encoded_isOk_nonU32 _ fs p enc content hc henc
    | SHA2_512 => exact hash_file_encoded_isOk_nonU32 _ fs p enc content hc henc
    | SHA3_256 => exact hash_file_encoded_isOk_nonU32 _ fs p enc content hc henc
    | SHA3_384 => exact hash_file_encoded_isOk_nonU32 _ fs p enc content hc henc
    | SHA3_512 => exact hash_file_encoded_isOk_nonU32 _ fs p enc content hc henc
    | Whirlpool => exact hash_file_encoded_isOk_nonU32 _ fs p enc content hc henc
    | Blake2S256 => exact hash_file_encoded_isOk_nonU32 _ fs p enc content hc henc
    | Blake2B512 => exact hash_file_encoded_isOk_nonU32 _ fs p enc content hc henc

theorem stLoop_lines (c : ConfigSettings) (fs : FileSystem) :
    ∀ paths : List String,
      (stLoop c fs paths).1 = paths.map (resultLine c fs) := by
  intro paths
  induction paths with
  | nil => rfl
  | cons p rest ih => simp [stLoop, ih]

theorem stLoop_flag (c : ConfigSettings) (fs : FileSystem) :
    ∀ paths : List String,
      ((stLoop c fs paths).2 = true ↔
        ∃ p ∈ paths, isOkE (call_hasher c.algorithm c.encoding fs p) = false) := by
  intro paths
  induction paths with
  | nil => simp [stLoop]
  | cons p rest ih =>
    simp only [stLoop, Bool.or_eq_true, Bool.not_eq_true', ih,
      List.mem_cons]
    constructor
    · rintro (h | ⟨q, hq, hqf⟩)
      · exact ⟨p, Or.inl rfl, h⟩
      · exact ⟨q, Or.inr hq, hqf⟩
    · rintro ⟨q, hq | hq, hqf⟩
      · subst hq
        exact Or.inl hqf
      · exact Or.inr ⟨q, hq, hqf⟩

theorem mt_flag (c : ConfigSettings) (fs : FileSystem) :
    ∀ paths : List String,
      (file_hashes_mt c fs paths).2 = (stLoop c fs paths).2 := by
  have core : ∀ paths : List String,
      ((paths.map (fun p => (p, call_hasher c.algorithm c.encoding fs p))).foldr
        (fun pr acc =>
          match pr.2 with
          | .ok h => (Line.out (hashLine c h pr.1) :: acc.1, acc.2)
          | .error e => (Line.err (fileErrorLine pr.1 e) :: acc.1, true))
        ([], false)).2 = (stLoop c fs paths).2 := by
    intro paths
    induction paths with
    | nil => rfl
    | cons p rest ih =>
      cases hr : call_hasher c.algorithm c.encoding fs p with
      | ok h => simp [stLoop, hr, isOkE, ih]
      | error e => simp [stLoop, hr, isOkE, ih]
  intro paths
  simp only [file_hashes_mt]
  exact core paths

theorem worker_outcome (c : ConfigSettings) (fs : FileSystem)
    (paths : List String) (hne : paths ≠ []) :
    (worker_func c fs paths).1 =
      (if (stLoop c fs paths).2 then WorkerOutcome.failure
       else WorkerOutcome.success) := by
  have hemp : paths.isEmpty = false := by
    cases paths with
    | nil => exact absurd rfl hne
    | cons p rest => rfl
  by_cases hmode : (c.single_thread || paths.length == 1) = true
  · simp [worker_func, hemp, hmode, file_hashes_st]
  · simp [worker_func, hemp, hmode, mt_flag]

theorem worker_failure_iff (c : ConfigSettings) (fs : FileSystem)
    (paths : List String) :
    ((worker_func c fs paths).1 = .failure ↔
      ∃ p ∈ paths, isOkE (call_hasher c.algorithm c.encoding fs p) = false) := by
  by_cases hemp : paths = []
  · subst hemp
    simp [worker_func]
  · rw [worker_outcome c fs paths hemp]
    cases hf : (stLoop c fs paths).2 with
    | false =>
      rw [if_neg (by simp)]
      constructor
      · intro h
        cases h
      · intro hex
        have h2 := (stLoop_flag c fs paths).mpr hex
        rw [hf] at h2
        cases h2
    | true =>
      rw [if_pos rfl]
      exact iff_of_true rfl ((stLoop_flag c fs paths).mp hf)

theorem stLoop_outputs (c : ConfigSettings) (fs : FileSystem)
    (hpair : (c.algorithm = .CRC32) ↔ (c.encoding = .U32)) :
    ∀ paths : List String,
      outputsOf (stLoop c fs paths).1 =
        (paths.filter (fun p => (fs p).isSome)).map
          (fun p => hashLine c (okHash c fs p) p) := by
  intro paths
  induction paths with
  | nil => rfl
  | cons p rest ih =>
    simp only [outputsOf] at ih
    cases hfs : fs p with
    | none =>
      have herr := call_hasher_valid_none c.algorithm c.encoding hpair fs p hfs
      simp [stLoop, outputsOf, resultLine, herr, List.filter_cons, hfs, ih]
    | some content =>
      have hok := call_hasher_valid_some c.algorithm c.encoding hpair fs p
        content hfs
      obtain ⟨s, hs⟩ := isOkE_ok _ hok
      have hoh : okHash c fs p = s := by
        rw [okHash.eq_def, hs]
      simp [stLoop, outputsOf, resultLine, hs, List.filter_cons, hfs, ih, hoh]

theorem stLoop_errors_length (c : ConfigSettings) (fs : FileSystem)
    (hpair : (c.algorithm = .CRC32) ↔ (c.encoding = .U32)) :
    ∀ paths : List String,
      (errorsOf (stLoop c fs paths).1).length =
        (paths.filter (fun p => (fs p).isNone)).length := by
  intro paths
  induction paths with
  | nil => rfl
  | cons p rest ih =>
    simp only [errorsOf] at ih
    cases hfs : fs p with
    | none =>
      have herr := call_hasher_valid_none c.algorithm c.encoding hpair fs p hfs
      simp [stLoop, errorsOf, resultLine, herr, List.filter_cons, hfs, ih]
    | some content =>
      have hok := call_hasher_valid_some c.algorithm c.encoding hpair fs p
        content hfs
      obtain ⟨s, hs⟩ := isOkE_ok _ hok
      simp [stLoop, errorsOf, resultLine, hs, List.filter_cons, hfs, ih]

theorem outputsOf_append (a b : List Line) :
    outputsOf (a ++ b) = outputsOf a ++ outputsOf b := by
  simp [outputsOf, List.filterMap_append]

theorem errorsOf_append (a b : List Line) :
    errorsOf (a ++ b) = errorsOf a ++ errorsOf b := by
  simp [errorsOf, List.filterMap_append]

theorem st_dbg_outputs (c : ConfigSettings) :
    outputsOf (if c.debug_mode then
        [Line.dbg "Single-threaded mode", Line.dbg "Algorithm"]
      else ([] : List Line)) = [] := by
  cases c.debug_mode <;> rfl

theorem st_dbg_errors (c : ConfigSettings) :
    errorsOf (if c.debug_mode then
        [Line.dbg "Single-threaded mode", Line.dbg "Algorithm"]
      else ([] : List Line)) = [] := by
  cases c.debug_mode <;> rfl

/-! ### Claim C6: per-file failure isolation -/

/-- C6: with a valid algorithm/encoding pairing, a batch containing
exactly one unreadable path still emits the correct hash line for every
readable path (in input order), emits exactly one line on the error
channel, the had_error flag of the sequential engine is set, and the
worker outcome is failure; in general the worker outcome is failure
exactly when at least one file failed. -/
theorem C6_failure_isolation (c : ConfigSettings) (fs : FileSystem)
    (paths : List String)
    (hpair : (c.algorithm = .CRC32) ↔ (c.encoding = .U32))
    (hone : (paths.filter (fun p => (fs p).isNone)).length = 1) :
    outputsOf (file_hashes_st c fs paths).1 =
      (paths.filter (fun p => (fs p).isSome)).map
        (fun p => hashLine c (okHash c fs p) p)
    ∧ (errorsOf (file_hashes_st c fs paths).1).length = 1
    ∧ (file_hashes_st c fs paths).2 = true
    ∧ (worker_func c fs paths).1 = .failure
    ∧ ∀ qaths : List String,
        ((worker_func c fs qaths).1 = .failure ↔
          ∃ p ∈ qaths,
            isOkE (call_hasher c.algorithm c.encoding fs p) = false) := by
  have hex : ∃ p ∈ paths,
      isOkE (call_hasher c.algorithm c.encoding fs p) = false := by
    have hpos : 0 < (paths.filter (fun p => (fs p).isNone)).length := by
      omega
    obtain ⟨p, hp⟩ := List.exists_mem_of_length_pos hpos
    have hmem := List.mem_filter.mp hp
    refine ⟨p, hmem.1, ?_⟩
    have hnone : fs p = none := by
      have := hmem.2
      simpa [Option.isNone_iff_eq_none] using this
    rw [call_hasher_valid_none c.algorithm c.encoding hpair fs p hnone]
    rfl
  refine ⟨?_, ?_, ?_, ?_, fun qaths => worker_failure_iff c fs qaths⟩
  · show outputsOf ((if c.debug_mode then
        [Line.dbg "Single-threaded mode", Line.dbg "Algorithm"]
      else ([] : List Line)) ++ (stLoop c fs paths).1) = _
    rw [outputsOf_append, st_dbg_outputs, List.nil_append,
      stLoop_outputs c fs hpair paths]
  · show (errorsOf ((if c.debug_mode then
        [Line.dbg "Single-threaded mode", Line.dbg "Algorithm"]
      else ([] : List Line)) ++ (stLoop c fs paths).1)).length = 1
    rw [errorsOf_append, st_dbg_errors, List.nil_append,
      stLoop_errors_length c fs hpair paths, hone]
  · show (stLoop c fs paths).2 = true
    exact (stLoop_flag c fs paths).mpr hex
  · exact (worker_failure_iff c fs paths).mpr hex

/-- Witness for C6 on a concrete three-file batch with one unreadable
path. -/
theorem C6_failure_isolation_witness :
    (file_hashes_st demoConfig demoFS ["a.txt", "nope", "b.txt"]).2 = true :=
  (C6_failure_isolation demoConfig demoFS ["a.txt", "nope", "b.txt"]
    (by decide) (by decide)).2.2.1

theorem resultLinesOf_append (a b : List Line) :
    resultLinesOf (a ++ b) = resultLinesOf a ++ resultLinesOf b := by
  simp [resultLinesOf, List.filter_append]

theorem resultLinesOf_map (c : ConfigSettings) (fs : FileSystem) :
    ∀ paths : List String,
      resultLinesOf (paths.map (resultLine c fs)) =
        paths.map (resultLine c fs) := by
  intro paths
  induction paths with
  | nil => rfl
  | cons p rest ih =>
    have hp : (match resultLine c fs p with
        | .dbg _ => false
        | _ => true) = true := by
      rw [resultLine.eq_def]
      cases call_hasher c.algorithm c.encoding fs p <;> rfl
    simp only [resultLinesOf] at ih
    simp only [List.map_cons, resultLinesOf, List.filter_cons]
    rw [if_pos hp]
    exact congrArg _ ih

/-! ### Claim C7: sequential mode ordering -/

/-- C7: whenever the single-thread flag is set or the path list has
exactly one element, the worker processes paths sequentially and the
per-file result lines (success or error) appear in exactly the input
order of the path list. -/
theorem C7_sequential_order (c : ConfigSettings) (fs : FileSystem)
    (paths : List String)
    (hmode : c.single_thread = true ∨ paths.length = 1) :
    resultLinesOf (worker_func c fs paths).2 =
      paths.map (resultLine c fs) := by
  by_cases hemp : paths = []
  · subst hemp
    cases hdm : c.debug_mode <;> simp [worker_func, hdm, resultLinesOf]
  · have hempB : paths.isEmpty = false := by
      cases paths with
      | nil => exact absurd rfl hemp
      | cons p r => rfl
    have hmodeB : (c.single_thread || paths.length == 1) = true := by
      rcases hmode with h | h
      · rw [h]
        rfl
      · rw [h]
        simp
    have hlines : (worker_func c fs paths).2 =
        (if c.debug_mode then [Line.dbg "Config"] else []) ++
        ((if c.debug_mode then [Line.dbg "Files to hash"] else []) ++
         ((if c.debug_mode then
             [Line.dbg "Single-threaded mode", Line.dbg "Algorithm"]
           else []) ++
          (stLoop c fs paths).1)) := by
      simp [worker_func, hempB, hmodeB, file_hashes_st, List.append_assoc]
    rw [hlines, resultLinesOf_append, resultLinesOf_append,
      resultLinesOf_append]
    have h0 : resultLinesOf
        (if c.debug_mode then [Line.dbg "Config"] else []) = [] := by
      cases c.debug_mode <;> rfl
    have h1 : resultLinesOf
        (if c.debug_mode then [Line.dbg "Files to hash"] else []) = [] := by
      cases c.debug_mode <;> rfl
    have h2 : resultLinesOf
        (if c.debug_mode then
           [Line.dbg "Single-threaded mode", Line.dbg "Algorithm"]
         else []) = [] := by
      cases c.debug_mode <;> rfl
    rw [h0, h1, h2, List.nil_append, List.nil_append, List.nil_append,
      stLoop_lines, resultLinesOf_map]

/-- Witness for C7 on a concrete single-path run. -/
theorem C7_sequential_order_witness :
    resultLinesOf (worker_func demoConfig demoFS ["a.txt", "b.txt"]).2 =
      ["a.txt", "b.txt"].map (resultLine demoConfig demoFS) :=
  C7_sequential_order demoConfig demoFS ["a.txt", "b.txt"] (Or.inl rfl)

/-! ### Claim C10: empty path list -/

/-- C10: on an empty resolved path list, the worker returns success
without hashing anything: no standard-output lines and no per-file error
lines are produced (at most a debug diagnostic on standard error), and
the run is not a failure. -/
theorem C10_empty_path_list (c : ConfigSettings) (fs : FileSystem) :
    (worker_func c fs []).1 = .success
    ∧ outputsOf (worker_func c fs []).2 = []
    ∧ errorsOf (worker_func c fs []).2 = [] := by
  cases hdm : c.debug_mode <;>
    simp [worker_func, hdm, outputsOf, errorsOf]

/-! ### Encoding round-trip lemmas -/

theorem hexVal_hexDigit : ∀ v, v < 16 → hexVal (hexDigit v) = some v := by
  decide

theorem hexDecodeChars_encode :
    ∀ h : List Nat, (∀ b ∈ h, b < 256) →
      hexDecodeChars (hexEncodeChars h) = some h := by
  intro h
  induction h with
  | nil => intro _; rfl
  | cons b t ih =>
    intro hb
    have hb0 : b < 256 := hb b (by simp)
    have e1 := hexVal_hexDigit (b / 16) (by omega)
    have e2 := hexVal_hexDigit (b % 16) (by omega)
    have iht := ih (fun x hx => hb x (by simp [hx]))
    have k1 : 16 * (b / 16) + b % 16 = b := by omega
    simp [hexEncodeChars, hexDecodeChars, e1, e2, iht, k1]

theorem b64v_b64c : ∀ v, v < 64 → b64v (b64c v) = some v := by
  decide

theorem b64c_ne_pad (v : Nat) : b64c v ≠ '=' := by
  by_cases hv : v < 64
  · have hall : ∀ w, w < 64 → b64c w ≠ '=' := by decide
    exact hall v hv
  · have hlen : b64Alphabet.length ≤ v := by
      simp [b64Alphabet]
      omega
    show b64Alphabet.getD v '?' ≠ '='
    rw [List.getD_eq_default _ _ hlen]
    decide

theorem base64_roundtrip :
    ∀ h : List Nat, (∀ b ∈ h, b < 256) →
      base64DecodeChars (base64EncodeChars h) = some h := by
  intro h
  induction h using base64EncodeChars.induct with
  | case1 => intro _; rfl
  | case2 b1 =>
    intro hb
    have h1 : b1 < 256 := hb b1 (by simp)
    have e1 := b64v_b64c (b1 / 4) (by omega)
    have e2 := b64v_b64c (b1 % 4 * 16) (by omega)
    have k0 : b1 % 4 * 16 % 16 = 0 := by omega
    have k1 : b1 / 4 * 4 + b1 % 4 * 16 / 16 = b1 := by omega
    simp [base64EncodeChars, base64DecodeChars, e1, e2, k0, k1]
    omega
  | case3 b1 b2 =>
    intro hb
    have h1 : b1 < 256 := hb b1 (by simp)
    have h2 : b2 < 256 := hb b2 (by simp)
    have e1 := b64v_b64c (b1 / 4) (by omega)
    have e2 := b64v_b64c (b1 % 4 * 16 + b2 / 16) (by omega)
    have e3 := b64v_b64c (b2 % 16 * 4) (by omega)
    have k0 : b2 % 16 * 4 % 4 = 0 := by omega
    have k1 : b1 / 4 * 4 + (b1 % 4 * 16 + b2 / 16) / 16 = b1 := by omega
    have k2 : (b1 % 4 * 16 + b2 / 16) % 16 * 16 + b2 % 16 * 4 / 4 = b2 := by
      omega
    simp [base64EncodeChars, base64DecodeChars, e1, e2, e3, b64c_ne_pad,
      k0, k1, k2]
    omega
  | case4 b1 b2 b3 t ih =>
    intro hb
    have h1 : b1 < 256 := hb b1 (by simp)
    have h2 : b2 < 256 := hb b2 (by simp)
    have h3 : b3 < 256 := hb b3 (by simp)
    have e1 := b64v_b64c (b1 / 4) (by omega)
    have e2 := b64v_b64c (b1 % 4 * 16 + b2 / 16) (by omega)
    have e3 := b64v_b64c (b2 % 16 * 4 + b3 / 64) (by omega)
    have e4 := b64v_b64c (b3 % 64) (by omega)
    have iht := ih (fun x hx => hb x (by simp [hx]))
    have k1 : b1 / 4 * 4 + (b1 % 4 * 16 + b2 / 16) / 16 = b1 := by omega
    have k2 : (b1 % 4 * 16 + b2 / 16) % 16 * 16 +
        (b2 % 16 * 4 + b3 / 64) / 4 = b2 := by omega
    have k3 : (b2 % 16 * 4 + b3 / 64) % 4 * 64 + b3 % 64 = b3 := by omega
    simp [base64EncodeChars, base64DecodeChars, e1, e2, e3, e4,
      b64c_ne_pad, iht, k1, k2, k3]

theorem b32v_b32c : ∀ v, v < 32 → b32v (b32c v) = some v := by
  decide

theorem b32c_ne_pad (v : Nat) : b32c v ≠ '=' := by
  by_cases hv : v < 32
  · have hall : ∀ w, w < 32 → b32c w ≠ '=' := by decide
    exact hall v hv
  · have hlen : b32Alphabet.length ≤ v := by
      simp [b32Alphabet]
      omega
    show b32Alphabet.getD v '?' ≠ '='
    rw [List.getD_eq_default _ _ hlen]
    decide

theorem base32_roundtrip :
    ∀ h : List Nat, (∀ b ∈ h, b < 256) →
      base32DecodeChars (base32EncodeChars h) = some h := by
  intro h
  induction h using base32EncodeChars.induct with
  | case1 => intro _; rfl
  | case2 b1 =>
    intro hb
    have h1 : b1 < 256 := hb b1 (by simp)
    have e1 := b32v_b32c (b1 / 8) (by omega)
    have e2 := b32v_b32c (b1 % 8 * 4) (by omega)
    have k0 : b1 % 8 * 4 % 4 = 0 := by omega
    have k1 : b1 / 8 * 8 + b1 % 8 * 4 / 4 = b1 := by omega
    simp [base32EncodeChars, base32DecodeChars, e1, e2, k0, k1]
    omega
  | case3 b1 b2 =>
    intro hb
    have h1 : b1 < 256 := hb b1 (by simp)
    have h2 : b2 < 256 := hb b2 (by simp)
    have e1 := b32v_b32c (b1 / 8) (by omega)
    have e2 := b32v_b32c (b1 % 8 * 4 + b2 / 64) (by omega)
    have e3 := b32v_b32c (b2 / 2 % 32) (by omega)
    have e4 := b32v_b32c (b2 % 2 * 16) (by omega)
    have k0 : b2 % 2 * 16 % 16 = 0 := by omega
    have k1 : b1 / 8 * 8 + (b1 % 8 * 4 + b2 / 64) / 4 = b1 := by omega
    have k2 : (b1 % 8 * 4 + b2 / 64) % 4 * 64 + b2 / 2 % 32 * 2 +
        b2 % 2 * 16 / 16 = b2 := by omega
    simp [base32EncodeChars, base32DecodeChars, e1, e2, e3, e4,
      b32c_ne_pad, k0, k1, k2]
    omega
  | case4 b1 b2 b3 =>
    intro hb
    have h1 : b1 < 256 := hb b1 (by simp)
    have h2 : b2 < 256 := hb b2 (by simp)
    have h3 : b3 < 256 := hb b3 (by simp)
    have e1 := b32v_b32c (b1 / 8) (by omega)
    have e2 := b32v_b32c (b1 % 8 * 4 + b2 / 64) (by omega)
    have e3 := b32v_b32c (b2 / 2 % 32) (by omega)
    have e4 := b32v_b32c (b2 % 2 * 16 + b3 / 16) (by omega)
    have e5 := b32v_b32c (b3 % 16 * 2) (by omega)
    have k0 : b3 % 16 * 2 % 2 = 0 := by omega
    have k1 : b1 / 8 * 8 + (b1 % 8 * 4 + b2 / 64) / 4 = b1 := by omega
    have k2 : (b1 % 8 * 4 + b2 / 64) % 4 * 64 + b2 / 2 % 32 * 2 +
        (b2 % 2 * 16 + b3 / 16) / 16 = b2 := by omega
    have k3 : (b2 % 2 * 16 + b3 / 16) % 16 * 16 + b3 % 16 * 2 / 2 = b3 := by
      omega
    simp [base32EncodeChars, base32DecodeChars, e1, e2, e3, e4, e5,
      b32c_ne_pad, k0, k1, k2, k3]
    omega
  | case5 b1 b2 b3 b4 =>
    intro hb
    have h1 : b1 < 256 := hb b1 (by simp)
    have h2 : b2 < 256 := hb b2 (by simp)
    have h3 : b3 < 256 := hb b3 (by simp)
    have h4 : b4 < 256 := hb b4 (by simp)
    have e1 := b32v_b32c (b1 / 8) (by omega)
    have e2 := b32v_b32c (b1 % 8 * 4 + b2 / 64) (by omega)
    have e3 := b32v_b32c (b2 / 2 % 32) (by omega)
    have e4 := b32v_b32c (b2 % 2 * 16 + b3 / 16) (by omega)
    have e5 := b32v_b32c (b3 % 16 * 2 + b4 / 128) (by omega)
    have e6 := b32v_b32c (b4 / 4 % 32) (by omega)
    have e7 := b32v_b32c (b4 % 4 * 8) (by omega)
    have k0 : b4 % 4 * 8 % 8 = 0 := by omega
    have k1 : b1 / 8 * 8 + (b1 % 8 * 4 + b2 / 64) / 4 = b1 := by omega
    have k2 : (b1 % 8 * 4 + b2 / 64) % 4 * 64 + b2 / 2 % 32 * 2 +
        (b2 % 2 * 16 + b3 / 16) / 16 = b2 := by omega
    have k3 : (b2 % 2 * 16 + b3 / 16) % 16 * 16 +
        (b3 % 16 * 2 + b4 / 128) / 2 = b3 := by omega
    have k4 : (b3 % 16 * 2 + b4 / 128) % 2 * 128 + b4 / 4 % 32 * 4 +
        b4 % 4 * 8 / 8 = b4 := by omega
    simp [base32EncodeChars, base32DecodeChars, e1, e2, e3, e4, e5, e6, e7,
      b32c_ne_pad, k0, k1, k2, k3, k4]
    omega
  | case6 b1 b2 b3 b4 b5 t ih =>
    intro hb
    have h1 : b1 < 256 := hb b1 (by simp)
    have h2 : b2 < 256 := hb b2 (by simp)
    have h3 : b3 < 256 := hb b3 (by simp)
    have h4 : b4 < 256 := hb b4 (by simp)
    have h5 : b5 < 256 := hb b5 (by simp)
    have e1 := b32v_b32c (b1 / 8) (by omega)
    have e2 := b32v_b32c (b1 % 8 * 4 + b2 / 64) (by omega)
    have e3 := b32v_b32c (b2 / 2 % 32) (by omega)
    have e4 := b32v_b32c (b2 % 2 * 16 + b3 / 16) (by omega)
    have e5 := b32v_b32c (b3 % 16 * 2 + b4 / 128) (by omega)
    have e6 := b32v_b32c (b4 / 4 % 32) (by omega)
    have e7 := b32v_b32c (b4 % 4 * 8 + b5 / 32) (by omega)
    have e8 := b32v_b32c (b5 % 32) (by omega)
    have iht := ih (fun x hx => hb x (by simp [hx]))
    have k1 : b1 / 8 * 8 + (b1 % 8 * 4 + b2 / 64) / 4 = b1 := by omega
    have k2 : (b1 % 8 * 4 + b2 / 64) % 4 * 64 + b2 / 2 % 32 * 2 +
        (b2 % 2 * 16 + b3 / 16) / 16 = b2 := by omega
    have k3 : (b2 % 2 * 16 + b3 / 16) % 16 * 16 +
        (b3 % 16 * 2 + b4 / 128) / 2 = b3 := by omega
    have k4 : (b3 % 16 * 2 + b4 / 128) % 2 * 128 + b4 / 4 % 32 * 4 +
        (b4 % 4 * 8 + b5 / 32) / 8 = b4 := by omega
    have k5 : (b4 % 4 * 8 + b5 / 32) % 8 * 32 + b5 % 32 = b5 := by omega
    simp [base32EncodeChars, base32DecodeChars, e1, e2, e3, e4, e5, e6, e7,
      e8, b32c_ne_pad, iht, k1, k2, k3, k4, k5]

/-! ### Claim C8: encode/decode round trip -/

/-- C8: for every raw digest byte sequence, each textual encoding
produced by the encoding step of hash_file_encoded — lowercase Hex,
padded standard Base64 and padded RFC 4648 Base32 — decodes back to the
identical raw digest bytes. -/
theorem C8_encoding_roundtrip (h : List Nat) (hb : ∀ b ∈ h, b < 256) :
    (∀ s, encode_digest .Hex h = .ok s → hexDecode s = some h)
    ∧ (∀ s, encode_digest .Base64 h = .ok s → base64Decode s = some h)
    ∧ (∀ s, encode_digest .Base32 h = .ok s → base32Decode s = some h) := by
  refine ⟨?_, ?_, ?_⟩
  · intro s hs
    have : s = hexEncode h := by
      simpa [encode_digest] using hs.symm
    subst this
    exact hexDecodeChars_encode h hb
  · intro s hs
    have : s = base64Encode h := by
      simpa [encode_digest] using hs.symm
    subst this
    exact base64_roundtrip h hb
  · intro s hs
    have : s = base32Encode h := by
      simpa [encode_digest] using hs.symm
    subst this
    exact base32_roundtrip h hb

/-- Witness for C8 at the 4-byte CRC-style digest of the probe bytes. -/
theorem C8_encoding_roundtrip_witness :
    hexDecode (hexEncode [216, 127, 126, 12]) = some [216, 127, 126, 12] :=
  (C8_encoding_roundtrip [216, 127, 126, 12] (by decide)).1
    (hexEncode [216, 127, 126, 12]) rfl

end HashRust
